import Mathlib

/-!
Verification of the portfolio repository's two simulation cores:

* the drag / throw / return state machine of the 3D showcase
  (`src/components/PhysicsSandbox/SandboxCanvas.tsx`, hook `useDraggable`
  and the per-item `useFrame` choreography), and
* the force-directed graph layout engine
  (`src/components/GraphDemo.tsx`, function `tick` plus its pointer
  handlers).

The embedding works over exact rationals (`ℚ`).  All motion in the
sandbox happens on the `z = 0` plane (`worldAt` intersects the ray with
that plane and `drivePos` calls `.setZ(0)` every frame), so world points
and velocities are embedded as 2D vectors.  The source compares
Euclidean norms (`distanceTo`, `length`) against nonnegative constants;
the embedding compares squared norms against squared constants, which is
equivalent because both sides are nonnegative.  `Math.sqrt` occurring
inside force formulas of the graph engine is kept as an explicit
function parameter `sqrtQ`, so every theorem about the graph tick holds
for every interpretation of the square root.
-/

namespace Portfolio

/-- A point or velocity on the sandbox's `z = 0` interaction plane. -/
structure Vec2 where
  x : ℚ
  y : ℚ
deriving DecidableEq, Repr

/-- Squared Euclidean distance between two points; the source computes
`a.distanceTo(b)` and compares it against nonnegative thresholds, which
is equivalent to comparing this square against the squared threshold. -/
def dist2 (a b : Vec2) : ℚ :=
  (a.x - b.x) * (a.x - b.x) + (a.y - b.y) * (a.y - b.y)

/-- Squared Euclidean length, standing in for `v.length()` the same way. -/
def len2 (v : Vec2) : ℚ :=
  v.x * v.x + v.y * v.y

/-- THREE.MathUtils.clamp: `Math.max(min, Math.min(max, value))`. -/
def clampQ (value lo hi : ℚ) : ℚ :=
  max lo (min hi value)

namespace Sandbox

/-- The four modes of `useDraggable` (type `DragMode` in the source). -/
inductive DragMode where
  | choreo
  | grabbed
  | thrown
  | returning
deriving DecidableEq, Repr

/-- Viewport half-extents at `z = 0` (the `bounds` memo of `useDraggable`). -/
structure Bounds where
  minX : ℚ
  maxX : ℚ
  minY : ℚ
  maxY : ℚ
deriving DecidableEq, Repr

/-- Mutable state of one draggable item: mode, position and velocity
(the refs `mode`, `pos`, `vel` of `useDraggable`). -/
structure ThrowState where
  mode : DragMode
  pos : Vec2
  vel : Vec2
deriving DecidableEq, Repr

/-- Pointer-up handler of `useDraggable` (`onUp`): `moved` is the
distance from `grabStart` to the release point and decides tap vs drag
first; only a drag with release speed above `0.9` becomes a throw.
Returns the next mode together with whether `onTap` was invoked; the
norm comparisons `moved < 0.2` and `vel.length() > 0.9` are embedded as
the equivalent squared comparisons. -/
def onUp (releaseP grabStart vel : Vec2) : DragMode × Bool :=
  if dist2 releaseP grabStart < (1/5) * (1/5) then (DragMode.returning, true)
  else if (9/10) * (9/10) < len2 vel then (DragMode.thrown, false)
  else (DragMode.returning, false)

/-- Damped velocity of one thrown frame:
`vel.current.multiplyScalar(Math.max(0, 1 - delta * 2.2))`. -/
def dampVel (delta : ℚ) (s : ThrowState) : Vec2 :=
  ⟨s.vel.x * max 0 (1 - delta * (11/5)), s.vel.y * max 0 (1 - delta * (11/5))⟩

/-- Integrated position of one thrown frame:
`pos.current.addScaledVector(vel.current, delta)` after damping. -/
def intPos (delta : ℚ) (s : ThrowState) : Vec2 :=
  ⟨s.pos.x + (dampVel delta s).x * delta, s.pos.y + (dampVel delta s).y * delta⟩

/-- One axis of the boundary bounce in `stepThrown`: when the integrated
coordinate leaves `[lo, hi]` the velocity component is multiplied by
`-0.55` and the coordinate is clamped back into the interval.  Returns
`(velocity, coordinate)`. -/
def bounceAxis (lo hi v p : ℚ) : ℚ × ℚ :=
  if p < lo ∨ hi < p then (v * (-(11/20)), clampQ p lo hi) else (v, p)

/-- One frame of `stepThrown`: damp the velocity, integrate the
position, bounce each axis off the viewport-derived bounds, and fall
back to `returning` once the speed drops below `0.1` (embedded as the
squared comparison). -/
def stepThrown (b : Bounds) (delta : ℚ) (s : ThrowState) : ThrowState :=
  if s.mode = DragMode.thrown then
    let v1 := dampVel delta s
    let p1 := intPos delta s
    let ax := bounceAxis b.minX b.maxX v1.x p1.x
    let ay := bounceAxis b.minY b.maxY v1.y p1.y
    let m2 : DragMode :=
      if len2 ⟨ax.1, ay.1⟩ < (1/10) * (1/10) then DragMode.returning else DragMode.thrown
    ⟨m2, ⟨ax.2, ay.2⟩, ⟨ax.1, ay.1⟩⟩
  else s

end Sandbox

end Portfolio

namespace Portfolio
namespace Sandbox

/-- Claim C1 — tap-vs-throw disambiguation in `onUp`: travel below the
`0.2` tap threshold invokes the select callback and yields `returning`
(never `thrown`) regardless of the release speed, while travel at or
above `0.2` combined with release speed above `0.9` yields `thrown`
without invoking select. -/
theorem onUp_tap_vs_throw (releaseP grabStart vel : Vec2) :
    (dist2 releaseP grabStart < (1/5) * (1/5) →
      onUp releaseP grabStart vel = (DragMode.returning, true)) ∧
    ((1/5) * (1/5) ≤ dist2 releaseP grabStart → (9/10) * (9/10) < len2 vel →
      onUp releaseP grabStart vel = (DragMode.thrown, false)) := by
  constructor
  · intro h
    unfold onUp
    rw [if_pos h]
  · intro h hv
    unfold onUp
    rw [if_neg (not_lt.mpr h), if_pos hv]

/-- Witness for C1 at the spec's concrete inputs: travel `0.15` with
release speed `1.2` selects and returns; travel `0.25` with release
speed `1.2` throws without selecting. -/
theorem onUp_tap_vs_throw_witness :
    (dist2 ⟨3/20, 0⟩ ⟨0, 0⟩ < (1/5) * (1/5) ∧
      onUp ⟨3/20, 0⟩ ⟨0, 0⟩ ⟨6/5, 0⟩ = (DragMode.returning, true)) ∧
    ((1/5) * (1/5) ≤ dist2 ⟨1/4, 0⟩ ⟨0, 0⟩ ∧ (9/10) * (9/10) < len2 (⟨6/5, 0⟩ : Vec2) ∧
      onUp ⟨1/4, 0⟩ ⟨0, 0⟩ ⟨6/5, 0⟩ = (DragMode.thrown, false)) :=
  ⟨⟨by norm_num [dist2], (onUp_tap_vs_throw ⟨3/20, 0⟩ ⟨0, 0⟩ ⟨6/5, 0⟩).1 (by norm_num [dist2])⟩,
   ⟨by norm_num [dist2], by norm_num [len2],
    (onUp_tap_vs_throw ⟨1/4, 0⟩ ⟨0, 0⟩ ⟨6/5, 0⟩).2 (by norm_num [dist2]) (by norm_num [len2])⟩⟩

/-- Clamping into a nonempty interval lands inside the interval. -/
theorem clampQ_mem (v lo hi : ℚ) (h : lo ≤ hi) :
    lo ≤ clampQ v lo hi ∧ clampQ v lo hi ≤ hi :=
  ⟨le_max_left lo (min hi v), max_le h (min_le_left hi v)⟩

/-- Clamping a value above the upper bound gives exactly the bound. -/
theorem clampQ_of_hi_lt (v lo hi : ℚ) (h : lo ≤ hi) (hv : hi < v) :
    clampQ v lo hi = hi := by
  unfold clampQ
  rw [min_eq_left hv.le, max_eq_right h]

/-- Clamping a value below the lower bound gives exactly the bound. -/
theorem clampQ_of_lt_lo (v lo hi : ℚ) (hv : v < lo) :
    clampQ v lo hi = lo := by
  unfold clampQ
  exact max_eq_left ((min_le_right hi v).trans hv.le)

/-- Crossing the upper bound flips the velocity by `-0.55` and clamps to
exactly the bound. -/
theorem bounceAxis_hi (lo hi v p : ℚ) (h : lo ≤ hi) (hp : hi < p) :
    bounceAxis lo hi v p = (v * (-(11/20)), hi) := by
  unfold bounceAxis
  rw [if_pos (Or.inr hp), clampQ_of_hi_lt p lo hi h hp]

/-- Crossing the lower bound flips the velocity by `-0.55` and clamps to
exactly the bound. -/
theorem bounceAxis_lo (lo hi v p : ℚ) (hp : p < lo) :
    bounceAxis lo hi v p = (v * (-(11/20)), lo) := by
  unfold bounceAxis
  rw [if_pos (Or.inl hp), clampQ_of_lt_lo p lo hi hp]

/-- Staying inside the interval leaves velocity and coordinate alone. -/
theorem bounceAxis_of_mem (lo hi v p : ℚ) (h1 : lo ≤ p) (h2 : p ≤ hi) :
    bounceAxis lo hi v p = (v, p) := by
  unfold bounceAxis
  rw [if_neg]
  push_neg
  exact ⟨h1, h2⟩

/-- The bounced coordinate never ends up outside the interval. -/
theorem bounceAxis_snd_mem (lo hi v p : ℚ) (h : lo ≤ hi) :
    lo ≤ (bounceAxis lo hi v p).2 ∧ (bounceAxis lo hi v p).2 ≤ hi := by
  unfold bounceAxis
  by_cases hc : p < lo ∨ hi < p
  · rw [if_pos hc]
    exact clampQ_mem p lo hi h
  · rw [if_neg hc]
    push_neg at hc
    exact hc

/-- A thrown frame as one equation, with the outer mode test resolved. -/
theorem stepThrown_eq (b : Bounds) (delta : ℚ) (s : ThrowState)
    (hm : s.mode = DragMode.thrown) :
    stepThrown b delta s =
      ⟨if len2 ⟨(bounceAxis b.minX b.maxX (dampVel delta s).x (intPos delta s).x).1,
               (bounceAxis b.minY b.maxY (dampVel delta s).y (intPos delta s).y).1⟩
           < (1/10) * (1/10)
        then DragMode.returning else DragMode.thrown,
       ⟨(bounceAxis b.minX b.maxX (dampVel delta s).x (intPos delta s).x).2,
        (bounceAxis b.minY b.maxY (dampVel delta s).y (intPos delta s).y).2⟩,
       ⟨(bounceAxis b.minX b.maxX (dampVel delta s).x (intPos delta s).x).1,
        (bounceAxis b.minY b.maxY (dampVel delta s).y (intPos delta s).y).1⟩⟩ := by
  unfold stepThrown
  rw [if_pos hm]

/-- Concrete bounds used by the sandbox evaluations below. -/
def sandboxBounds : Bounds := ⟨-10, 10, -10, 10⟩

/-- A thrown item at the origin with unit captured x-velocity. -/
def thrownStateA : ThrowState := ⟨DragMode.thrown, ⟨0, 0⟩, ⟨1, 0⟩⟩

/-- A thrown item close to the right boundary with unit x-velocity. -/
def thrownStateB : ThrowState := ⟨DragMode.thrown, ⟨199/20, 0⟩, ⟨1, 0⟩⟩

/-- Counterexample to C2 as stated: two thrown frames of `0.1` s each
(elapsed `T = 0.2`, no boundary hit) leave the x-velocity at
`1 × 0.78 × 0.78 = 0.6084`, not at `1 × max 0 (1 − 0.2 × 2.2) = 0.56` —
the per-frame factors multiply instead of accumulating linearly in `T`. -/
theorem thrownDecay_closed_form_counterexample :
    ¬ ((stepThrown sandboxBounds (1/10) (stepThrown sandboxBounds (1/10) thrownStateA)).vel.x
        = thrownStateA.vel.x * max 0 (1 - (1/5) * (11/5))) := by
  norm_num [stepThrown, thrownStateA, sandboxBounds, dampVel, intPos, bounceAxis, clampQ,
    len2, max_def, min_def]

/-- Claim C2 (amended) — over a single Thrown frame of duration `delta`
whose integrated position stays inside the bounds, the velocity becomes
exactly `V × max(0, 1 − delta × 2.2)` (clamped at zero, never a negated
speed) and the position advances by that damped velocity times `delta`
(forward Euler: damp first, then integrate). -/
theorem stepThrown_single_frame_euler (b : Bounds) (delta : ℚ) (s : ThrowState)
    (hm : s.mode = DragMode.thrown)
    (hx1 : b.minX ≤ s.pos.x + s.vel.x * max 0 (1 - delta * (11/5)) * delta)
    (hx2 : s.pos.x + s.vel.x * max 0 (1 - delta * (11/5)) * delta ≤ b.maxX)
    (hy1 : b.minY ≤ s.pos.y + s.vel.y * max 0 (1 - delta * (11/5)) * delta)
    (hy2 : s.pos.y + s.vel.y * max 0 (1 - delta * (11/5)) * delta ≤ b.maxY) :
    (stepThrown b delta s).vel.x = s.vel.x * max 0 (1 - delta * (11/5)) ∧
    (stepThrown b delta s).vel.y = s.vel.y * max 0 (1 - delta * (11/5)) ∧
    (stepThrown b delta s).pos.x = s.pos.x + s.vel.x * max 0 (1 - delta * (11/5)) * delta ∧
    (stepThrown b delta s).pos.y = s.pos.y + s.vel.y * max 0 (1 - delta * (11/5)) * delta := by
  rw [stepThrown_eq b delta s hm,
    bounceAxis_of_mem b.minX b.maxX (dampVel delta s).x (intPos delta s).x hx1 hx2,
    bounceAxis_of_mem b.minY b.maxY (dampVel delta s).y (intPos delta s).y hy1 hy2]
  exact ⟨rfl, rfl, rfl, rfl⟩

/-- Witness for the amended C2 at `delta = 0.1` from the origin: the
velocity becomes `0.78` and the position `0.078`. -/
theorem stepThrown_single_frame_euler_witness :
    thrownStateA.mode = DragMode.thrown ∧
    (stepThrown sandboxBounds (1/10) thrownStateA).vel.x
      = thrownStateA.vel.x * max 0 (1 - (1/10) * (11/5)) ∧
    (stepThrown sandboxBounds (1/10) thrownStateA).pos.x
      = thrownStateA.pos.x + thrownStateA.vel.x * max 0 (1 - (1/10) * (11/5)) * (1/10) :=
  ⟨rfl,
   (stepThrown_single_frame_euler sandboxBounds (1/10) thrownStateA rfl
      (by norm_num [thrownStateA, sandboxBounds, max_def])
      (by norm_num [thrownStateA, sandboxBounds, max_def])
      (by norm_num [thrownStateA, sandboxBounds, max_def])
      (by norm_num [thrownStateA, sandboxBounds, max_def])).1,
   (stepThrown_single_frame_euler sandboxBounds (1/10) thrownStateA rfl
      (by norm_num [thrownStateA, sandboxBounds, max_def])
      (by norm_num [thrownStateA, sandboxBounds, max_def])
      (by norm_num [thrownStateA, sandboxBounds, max_def])
      (by norm_num [thrownStateA, sandboxBounds, max_def])).2.2.1⟩

/-- Claim C3 — in a Thrown frame, crossing any side of the
viewport-derived rectangle flips the corresponding velocity component's
sign and scales it by `0.55`, clamps the coordinate exactly onto the
crossed bound, and the resulting position never ends up outside the
rectangle. -/
theorem stepThrown_boundary_bounce (b : Bounds) (delta : ℚ) (s : ThrowState)
    (hm : s.mode = DragMode.thrown) (hbx : b.minX ≤ b.maxX) (hby : b.minY ≤ b.maxY) :
    (b.maxX < (intPos delta s).x →
      (stepThrown b delta s).vel.x = (dampVel delta s).x * (-(11/20)) ∧
      (stepThrown b delta s).pos.x = b.maxX) ∧
    ((intPos delta s).x < b.minX →
      (stepThrown b delta s).vel.x = (dampVel delta s).x * (-(11/20)) ∧
      (stepThrown b delta s).pos.x = b.minX) ∧
    (b.maxY < (intPos delta s).y →
      (stepThrown b delta s).vel.y = (dampVel delta s).y * (-(11/20)) ∧
      (stepThrown b delta s).pos.y = b.maxY) ∧
    ((intPos delta s).y < b.minY →
      (stepThrown b delta s).vel.y = (dampVel delta s).y * (-(11/20)) ∧
      (stepThrown b delta s).pos.y = b.minY) ∧
    (b.minX ≤ (stepThrown b delta s).pos.x ∧ (stepThrown b delta s).pos.x ≤ b.maxX ∧
      b.minY ≤ (stepThrown b delta s).pos.y ∧ (stepThrown b delta s).pos.y ≤ b.maxY) := by
  rw [stepThrown_eq b delta s hm]
  refine ⟨?_, ?_, ?_, ?_, ?_⟩
  · intro h
    rw [bounceAxis_hi b.minX b.maxX (dampVel delta s).x (intPos delta s).x hbx h]
    exact ⟨rfl, rfl⟩
  · intro h
    rw [bounceAxis_lo b.minX b.maxX (dampVel delta s).x (intPos delta s).x h]
    exact ⟨rfl, rfl⟩
  · intro h
    rw [bounceAxis_hi b.minY b.maxY (dampVel delta s).y (intPos delta s).y hby h]
    exact ⟨rfl, rfl⟩
  · intro h
    rw [bounceAxis_lo b.minY b.maxY (dampVel delta s).y (intPos delta s).y h]
    exact ⟨rfl, rfl⟩
  · exact ⟨(bounceAxis_snd_mem b.minX b.maxX (dampVel delta s).x (intPos delta s).x hbx).1,
      (bounceAxis_snd_mem b.minX b.maxX (dampVel delta s).x (intPos delta s).x hbx).2,
      (bounceAxis_snd_mem b.minY b.maxY (dampVel delta s).y (intPos delta s).y hby).1,
      (bounceAxis_snd_mem b.minY b.maxY (dampVel delta s).y (intPos delta s).y hby).2⟩

/-- Witness for C3: an item at `x = 9.95` with velocity `1` and frame
duration `0.1` integrates to `x = 10.028 > maxX = 10`, ending the frame
with velocity `0.78 × (−0.55)` and position exactly `10`. -/
theorem stepThrown_boundary_bounce_witness :
    thrownStateB.mode = DragMode.thrown ∧
    sandboxBounds.maxX < (intPos (1/10) thrownStateB).x ∧
    (stepThrown sandboxBounds (1/10) thrownStateB).vel.x
      = (dampVel (1/10) thrownStateB).x * (-(11/20)) ∧
    (stepThrown sandboxBounds (1/10) thrownStateB).pos.x = sandboxBounds.maxX :=
  ⟨rfl, by norm_num [intPos, dampVel, thrownStateB, sandboxBounds, max_def],
   (stepThrown_boundary_bounce sandboxBounds (1/10) thrownStateB rfl
      (by norm_num [sandboxBounds]) (by norm_num [sandboxBounds])).1
      (by norm_num [intPos, dampVel, thrownStateB, sandboxBounds, max_def]) |>.1,
   (stepThrown_boundary_bounce sandboxBounds (1/10) thrownStateB rfl
      (by norm_num [sandboxBounds]) (by norm_num [sandboxBounds])).1
      (by norm_num [intPos, dampVel, thrownStateB, sandboxBounds, max_def]) |>.2⟩

/-- Pose of one showcase item's root group: planar position plus the
Euler rotation components the `useFrame` callbacks write. -/
structure ItemPose where
  pos : Vec2
  rotX : ℚ
  rotY : ℚ
  rotZ : ℚ
deriving DecidableEq, Repr

/-- One Choreographed frame of `JustSphere` at clock `t`: bobbing target
`(0, 0.3 + sin(t·0.72)·0.24)` copied into the group position by
`drivePos`, and `rotation.y += delta · 0.28`.  `sinQ` abstracts
`Math.sin`. -/
def justSphereFrame (sinQ : ℚ → ℚ) (t delta : ℚ) (p : ItemPose) : ItemPose :=
  ⟨⟨0, 3/10 + sinQ (t * (18/25)) * (6/25)⟩, p.rotX, p.rotY + delta * (7/25), p.rotZ⟩

/-- One Choreographed frame of `IataAircraft`: elliptical orbit
`(3.8·cos(t·0.52), 0.3 + 2·sin(t·0.52))` with the nose heading
`atan2(2·cos(angle)·0.52, −3.8·sin(angle)·0.52)` written to
`rotation.z`. -/
def iataFrame (sinQ cosQ : ℚ → ℚ) (atan2Q : ℚ → ℚ → ℚ) (t _delta : ℚ) (p : ItemPose) :
    ItemPose :=
  ⟨⟨0 + (19/5) * cosQ (t * (13/25)), 3/10 + 2 * sinQ (t * (13/25))⟩, p.rotX, p.rotY,
   atan2Q (2 * cosQ (t * (13/25)) * (13/25)) (-(19/5) * sinQ (t * (13/25)) * (13/25))⟩

/-- One Choreographed frame of `StorycorpsPhone`: float target,
`rotation.y += delta · 0.2` and `rotation.z = sin(t·0.38)·0.06`. -/
def storycorpsFrame (sinQ : ℚ → ℚ) (t delta : ℚ) (p : ItemPose) : ItemPose :=
  ⟨⟨41/10 + sinQ (t * (11/25) + 9/10) * (11/100), 27/10 + sinQ (t * (81/100) + 6/5) * (1/5)⟩,
   p.rotX, p.rotY + delta * (1/5), sinQ (t * (19/50)) * (3/50)⟩

/-- One Choreographed frame of `NetflixTV`: float target and
`rotation.y += delta · 0.14`. -/
def netflixFrame (sinQ : ℚ → ℚ) (t delta : ℚ) (p : ItemPose) : ItemPose :=
  ⟨⟨sinQ (t * (37/100) + 1/2) * (9/50), -3 + sinQ (t * (16/25) + 21/10) * (9/50)⟩,
   p.rotX, p.rotY + delta * (7/50), p.rotZ⟩

/-- One Choreographed frame of `ComponentSystem`: float target,
`rotation.y += delta · 0.18` and `rotation.x = sin(t·0.28)·0.08`. -/
def componentSystemFrame (sinQ : ℚ → ℚ) (t delta : ℚ) (p : ItemPose) : ItemPose :=
  ⟨⟨-21/5, 13/5 + sinQ (t * (33/50) + 1/2) * (9/50)⟩,
   sinQ (t * (7/25)) * (2/25), p.rotY + delta * (9/50), p.rotZ⟩

/-- Drive a frame callback over a list of clock readings; each frame
receives the clock value `t` and the delta since the previous reading,
exactly as `useFrame(({clock}, delta) => ...)` observes them. -/
def runFramesAux (stepF : ℚ → ℚ → ItemPose → ItemPose) :
    ℚ → ItemPose → List ℚ → ItemPose
  | _, p, [] => p
  | prev, p, t :: ts => runFramesAux stepF t (stepF t (t - prev) p) ts

/-- Run a choreography from mount (clock origin `0`). -/
def runFrames (stepF : ℚ → ℚ → ItemPose → ItemPose) (p0 : ItemPose) (times : List ℚ) :
    ItemPose :=
  runFramesAux stepF 0 p0 times

/-- Closed form of a `JustSphere` run ending at clock `t`. -/
theorem justSphere_run_closed (sinQ : ℚ → ℚ) (ts : List ℚ) :
    ∀ (prev : ℚ) (p : ItemPose),
      runFramesAux (justSphereFrame sinQ) prev p (ts ++ [t]) =
        ⟨⟨0, 3/10 + sinQ (t * (18/25)) * (6/25)⟩, p.rotX, p.rotY + (t - prev) * (7/25),
         p.rotZ⟩ := by
  induction ts with
  | nil =>
    intro prev p
    rfl
  | cons a ts ih =>
    intro prev p
    show runFramesAux (justSphereFrame sinQ) a (justSphereFrame sinQ a (a - prev) p)
        (ts ++ [t]) = _
    rw [ih a (justSphereFrame sinQ a (a - prev) p)]
    simp only [justSphereFrame, ItemPose.mk.injEq, true_and, and_true]
    ring

/-- Closed form of an `IataAircraft` run ending at clock `t`. -/
theorem iata_run_closed (sinQ cosQ : ℚ → ℚ) (atan2Q : ℚ → ℚ → ℚ) (ts : List ℚ) :
    ∀ (prev : ℚ) (p : ItemPose),
      runFramesAux (iataFrame sinQ cosQ atan2Q) prev p (ts ++ [t]) =
        ⟨⟨0 + (19/5) * cosQ (t * (13/25)), 3/10 + 2 * sinQ (t * (13/25))⟩, p.rotX, p.rotY,
         atan2Q (2 * cosQ (t * (13/25)) * (13/25))
           (-(19/5) * sinQ (t * (13/25)) * (13/25))⟩ := by
  induction ts with
  | nil =>
    intro prev p
    rfl
  | cons a ts ih =>
    intro prev p
    show runFramesAux (iataFrame sinQ cosQ atan2Q) a
        (iataFrame sinQ cosQ atan2Q a (a - prev) p) (ts ++ [t]) = _
    rw [ih a (iataFrame sinQ cosQ atan2Q a (a - prev) p)]
    simp only [iataFrame]

/-- Closed form of a `StorycorpsPhone` run ending at clock `t`. -/
theorem storycorps_run_closed (sinQ : ℚ → ℚ) (ts : List ℚ) :
    ∀ (prev : ℚ) (p : ItemPose),
      runFramesAux (storycorpsFrame sinQ) prev p (ts ++ [t]) =
        ⟨⟨41/10 + sinQ (t * (11/25) + 9/10) * (11/100),
          27/10 + sinQ (t * (81/100) + 6/5) * (1/5)⟩,
         p.rotX, p.rotY + (t - prev) * (1/5), sinQ (t * (19/50)) * (3/50)⟩ := by
  induction ts with
  | nil =>
    intro prev p
    rfl
  | cons a ts ih =>
    intro prev p
    show runFramesAux (storycorpsFrame sinQ) a (storycorpsFrame sinQ a (a - prev) p)
        (ts ++ [t]) = _
    rw [ih a (storycorpsFrame sinQ a (a - prev) p)]
    simp only [storycorpsFrame, ItemPose.mk.injEq, true_and, and_true]
    ring

/-- Closed form of a `NetflixTV` run ending at clock `t`. -/
theorem netflix_run_closed (sinQ : ℚ → ℚ) (ts : List ℚ) :
    ∀ (prev : ℚ) (p : ItemPose),
      runFramesAux (netflixFrame sinQ) prev p (ts ++ [t]) =
        ⟨⟨sinQ (t * (37/100) + 1/2) * (9/50), -3 + sinQ (t * (16/25) + 21/10) * (9/50)⟩,
         p.rotX, p.rotY + (t - prev) * (7/50), p.rotZ⟩ := by
  induction ts with
  | nil =>
    intro prev p
    rfl
  | cons a ts ih =>
    intro prev p
    show runFramesAux (netflixFrame sinQ) a (netflixFrame sinQ a (a - prev) p)
        (ts ++ [t]) = _
    rw [ih a (netflixFrame sinQ a (a - prev) p)]
    simp only [netflixFrame, ItemPose.mk.injEq, true_and, and_true]
    ring

/-- Closed form of a `ComponentSystem` run ending at clock `t`. -/
theorem componentSystem_run_closed (sinQ : ℚ → ℚ) (ts : List ℚ) :
    ∀ (prev : ℚ) (p : ItemPose),
      runFramesAux (componentSystemFrame sinQ) prev p (ts ++ [t]) =
        ⟨⟨-21/5, 13/5 + sinQ (t * (33/50) + 1/2) * (9/50)⟩,
         sinQ (t * (7/25)) * (2/25), p.rotY + (t - prev) * (9/50), p.rotZ⟩ := by
  induction ts with
  | nil =>
    intro prev p
    rfl
  | cons a ts ih =>
    intro prev p
    show runFramesAux (componentSystemFrame sinQ) a (componentSystemFrame sinQ a (a - prev) p)
        (ts ++ [t]) = _
    rw [ih a (componentSystemFrame sinQ a (a - prev) p)]
    simp only [componentSystemFrame, ItemPose.mk.injEq, true_and, and_true]
    ring

/-- Claim C8 — for every showcase item driven in Choreographed mode, the
pose written at a given clock value is a pure function of that clock
value: two runs from the same mounted pose, subdivided into different
frame sequences but observed at the same final clock reading `t`, end in
identical position and rotation, for every interpretation of the trig
functions. -/
theorem choreography_pure_in_clock (sinQ cosQ : ℚ → ℚ) (atan2Q : ℚ → ℚ → ℚ)
    (p0 : ItemPose) (ts1 ts2 : List ℚ) (t : ℚ) :
    runFrames (justSphereFrame sinQ) p0 (ts1 ++ [t])
      = runFrames (justSphereFrame sinQ) p0 (ts2 ++ [t]) ∧
    runFrames (iataFrame sinQ cosQ atan2Q) p0 (ts1 ++ [t])
      = runFrames (iataFrame sinQ cosQ atan2Q) p0 (ts2 ++ [t]) ∧
    runFrames (storycorpsFrame sinQ) p0 (ts1 ++ [t])
      = runFrames (storycorpsFrame sinQ) p0 (ts2 ++ [t]) ∧
    runFrames (netflixFrame sinQ) p0 (ts1 ++ [t])
      = runFrames (netflixFrame sinQ) p0 (ts2 ++ [t]) ∧
    runFrames (componentSystemFrame sinQ) p0 (ts1 ++ [t])
      = runFrames (componentSystemFrame sinQ) p0 (ts2 ++ [t]) := by
  unfold runFrames
  rw [justSphere_run_closed sinQ ts1 0 p0, justSphere_run_closed sinQ ts2 0 p0,
    iata_run_closed sinQ cosQ atan2Q ts1 0 p0, iata_run_closed sinQ cosQ atan2Q ts2 0 p0,
    storycorps_run_closed sinQ ts1 0 p0, storycorps_run_closed sinQ ts2 0 p0,
    netflix_run_closed sinQ ts1 0 p0, netflix_run_closed sinQ ts2 0 p0,
    componentSystem_run_closed sinQ ts1 0 p0, componentSystem_run_closed sinQ ts2 0 p0]
  exact ⟨rfl, rfl, rfl, rfl, rfl⟩

end Sandbox
end Portfolio

namespace Portfolio
namespace Graph

/-- Per-node physical state of the graph engine (`PhysNode` in the
source): position, velocity and the pinned flag set while dragging. -/
structure PhysNode where
  x : ℚ
  y : ℚ
  vx : ℚ
  vy : ℚ
  pinned : Bool
deriving DecidableEq, Repr

/-- An edge between a project node (`si`) and a skill node (`ti`),
stored as indices into the node array (`GEdge` in the source). -/
structure GEdge where
  si : ℕ
  ti : ℕ
deriving DecidableEq, Repr

/-- Repulsion constant. -/
def REPEL : ℚ := 4800

/-- Spring (Hooke) constant. -/
def SPRING_K : ℚ := 4/125

/-- Spring rest length. -/
def REST_LEN : ℚ := 160

/-- Center-gravity constant. -/
def GRAVITY : ℚ := 13/500

/-- Per-tick multiplicative velocity damping. -/
def DAMPING : ℚ := 87/100

/-- Velocity clamp (units per tick). -/
def VMAX : ℚ := 9

/-- Viewport padding for the soft boundary bounce. -/
def PAD : ℚ := 70

/-- Placeholder node for out-of-range indexing; the source only ever
indexes within bounds. -/
def defaultNode : PhysNode := ⟨0, 0, 0, 0, false⟩

/-- Array access `phys[i]`. -/
def nd (phys : List PhysNode) (i : ℕ) : PhysNode :=
  (phys[i]?).getD defaultNode

/-- Write `F[i] += v` on a force buffer, as the tick does on its
`Float32Array`s `fx`/`fy` (embedded exactly, without 32-bit rounding). -/
def addAt (F : ℕ → ℚ × ℚ) (i : ℕ) (v : ℚ × ℚ) : ℕ → ℚ × ℚ :=
  fun k => if k = i then F k + v else F k

/-- Total contribution a list of `(index, vector)` buffer writes makes
to slot `k`. -/
def sumAt (l : List (ℕ × (ℚ × ℚ))) (k : ℕ) : ℚ × ℚ :=
  (l.map (fun p => if p.1 = k then p.2 else 0)).sum

/-- Center-gravity loop of `tick`: every unpinned node receives
`(center − position) · GRAVITY`. -/
def gravContribs (phys : List PhysNode) (cx cy : ℚ) : List (ℕ × (ℚ × ℚ)) :=
  (List.range phys.length).flatMap (fun i =>
    if (nd phys i).pinned then []
    else [(i, ((cx - (nd phys i).x) * GRAVITY, (cy - (nd phys i).y) * GRAVITY))])

/-- Softened squared distance of the repulsion loop:
`dx·dx + dy·dy + 0.01`. -/
def repelD2 (phys : List PhysNode) (i j : ℕ) : ℚ :=
  ((nd phys j).x - (nd phys i).x) * ((nd phys j).x - (nd phys i).x) +
    ((nd phys j).y - (nd phys i).y) * ((nd phys j).y - (nd phys i).y) + 1/100

/-- Repulsion added to node `j` by the pair `(i, j)`:
`(dx · inv · f, dy · inv · f)` with `inv = 1 / sqrt(d2)` and
`f = REPEL / d2`; node `i` receives the negation.  `sqrtQ` abstracts
`Math.sqrt`. -/
def repelContrib (sqrtQ : ℚ → ℚ) (phys : List PhysNode) (i j : ℕ) : ℚ × ℚ :=
  (((nd phys j).x - (nd phys i).x) * (1 / sqrtQ (repelD2 phys i j)) *
      (REPEL / repelD2 phys i j),
   ((nd phys j).y - (nd phys i).y) * (1 / sqrtQ (repelD2 phys i j)) *
      (REPEL / repelD2 phys i j))

/-- Index pairs `(i, j)` with `i < j < n`, in the order of the nested
repulsion loops. -/
def pairIdx (n : ℕ) : List (ℕ × ℕ) :=
  (List.range n).flatMap (fun i =>
    ((List.range n).filter (fun j => decide (i < j))).map (fun j => (i, j)))

/-- Pairwise-repulsion loop of `tick`: each pair writes its force to
both endpoints (action and reaction), gated on the receiver's pinned
flag. -/
def pairContribs (sqrtQ : ℚ → ℚ) (phys : List PhysNode) : List (ℕ × (ℚ × ℚ)) :=
  (pairIdx phys.length).flatMap (fun ij =>
    (if (nd phys ij.1).pinned then [] else [(ij.1, -(repelContrib sqrtQ phys ij.1 ij.2))]) ++
    (if (nd phys ij.2).pinned then [] else [(ij.2, repelContrib sqrtQ phys ij.1 ij.2)]))

/-- Hooke spring force an edge applies to its source endpoint (the
target endpoint receives the negation): `d = sqrt(dx² + dy²) + 0.01`,
rest length contracts to `0.44 ×` when the edge's skill endpoint is
hovered, `f = SPRING_K · (d − rest)` along the unit direction. -/
def springContrib (sqrtQ : ℚ → ℚ) (phys : List PhysNode) (hov : Option ℕ) (e : GEdge) :
    ℚ × ℚ :=
  let dx := (nd phys e.ti).x - (nd phys e.si).x
  let dy := (nd phys e.ti).y - (nd phys e.si).y
  let d := sqrtQ (dx * dx + dy * dy) + 1/100
  let rest := if hov = some e.ti then REST_LEN * (44/100) else REST_LEN
  let f := SPRING_K * (d - rest)
  ((dx / d) * f, (dy / d) * f)

/-- Spring loop of `tick`: each edge pulls both endpoints, gated on the
receiver's pinned flag. -/
def springContribs (sqrtQ : ℚ → ℚ) (phys : List PhysNode) (hov : Option ℕ)
    (edges : List GEdge) : List (ℕ × (ℚ × ℚ)) :=
  edges.flatMap (fun e =>
    (if (nd phys e.si).pinned then [] else [(e.si, springContrib sqrtQ phys hov e)]) ++
    (if (nd phys e.ti).pinned then [] else [(e.ti, -(springContrib sqrtQ phys hov e))]))

/-- The force buffers `fx`/`fy` after the three accumulation loops of
`tick` have run, starting from zeroed buffers. -/
def forceBuf (sqrtQ : ℚ → ℚ) (phys : List PhysNode) (hov : Option ℕ) (edges : List GEdge)
    (cx cy : ℚ) : ℕ → ℚ × ℚ :=
  (gravContribs phys cx cy ++ pairContribs sqrtQ phys ++
      springContribs sqrtQ phys hov edges).foldl
    (fun F p => addAt F p.1 p.2) (fun _ => 0)

/-- Soft boundary bounce of one coordinate: the two sequential `if`s of
the integration loop clamp the coordinate to `[PAD, limit − PAD]` and
multiply the velocity component by `-0.3` on each crossing.  Returns
`(coordinate, velocity)`. -/
def softBounce (limit v p : ℚ) : ℚ × ℚ :=
  let p1 := if p < PAD then PAD else p
  let v1 := if p < PAD then v * (-(3/10)) else v
  let p2 := if limit - PAD < p1 then limit - PAD else p1
  let v2 := if limit - PAD < p1 then v1 * (-(3/10)) else v1
  (p2, v2)

/-- Integration phase of `tick` for one node with accumulated force `f`:
a pinned node skips integration (and tracks the mouse when it is the
dragged node); otherwise the velocity is damped and clamped to `±VMAX`,
the position advances by the velocity, and each coordinate soft-bounces
off the padded viewport edges. -/
def integrateNode (w h : ℚ) (drag : Option ℕ) (mouse : ℚ × ℚ) (i : ℕ) (p : PhysNode)
    (f : ℚ × ℚ) : PhysNode :=
  if p.pinned then
    if drag = some i then { p with x := mouse.1, y := mouse.2 } else p
  else
    let vx := max (-VMAX) (min VMAX ((p.vx + f.1) * DAMPING))
    let vy := max (-VMAX) (min VMAX ((p.vy + f.2) * DAMPING))
    let bx := softBounce w vx (p.x + vx)
    let ny := softBounce h vy (p.y + vy)
    ⟨bx.1, ny.1, bx.2, ny.2, p.pinned⟩

/-- One simulation tick of the graph engine: accumulate all forces into
the buffers, then integrate every node. -/
def tick (sqrtQ : ℚ → ℚ) (w h : ℚ) (hov : Option ℕ) (drag : Option ℕ) (mouse : ℚ × ℚ)
    (edges : List GEdge) (phys : List PhysNode) : List PhysNode :=
  (List.range phys.length).map (fun i =>
    integrateNode w h drag mouse i (nd phys i)
      (forceBuf sqrtQ phys hov edges (w/2) (h/2) i))

/-- Gravity force on one node, from the previous-frame state
(specification reference). -/
def gravityForceOn (phys : List PhysNode) (cx cy : ℚ) (k : ℕ) : ℚ × ℚ :=
  ((cx - (nd phys k).x) * GRAVITY, (cy - (nd phys k).y) * GRAVITY)

/-- Specification reference for the total force on one node: computed
per node as a pure function of the fully-settled previous-frame
positions — gravity toward the center, plus the repulsion directly
summed over every other node, plus the spring pull summed over every
incident edge; a pinned node accumulates no force. -/
def specForce (sqrtQ : ℚ → ℚ) (phys : List PhysNode) (hov : Option ℕ) (edges : List GEdge)
    (cx cy : ℚ) (k : ℕ) : ℚ × ℚ :=
  if (nd phys k).pinned then 0
  else
    gravityForceOn phys cx cy k +
    ((List.range phys.length).map
      (fun j => if j = k then 0 else repelContrib sqrtQ phys j k)).sum +
    (edges.map (fun e =>
      (if e.si = k then springContrib sqrtQ phys hov e else 0) +
      (if e.ti = k then -(springContrib sqrtQ phys hov e) else 0))).sum

/-- Specification reference tick (simultaneous update): every node is
integrated against its per-node force computed from the previous-frame
state. -/
def specTick (sqrtQ : ℚ → ℚ) (w h : ℚ) (hov : Option ℕ) (drag : Option ℕ) (mouse : ℚ × ℚ)
    (edges : List GEdge) (phys : List PhysNode) : List PhysNode :=
  (List.range phys.length).map (fun k =>
    integrateNode w h drag mouse k (nd phys k)
      (specForce sqrtQ phys hov edges (w/2) (h/2) k))

/-- The mutable component state the pointer handlers touch: the node
array (`physRef`) and the drag handle (`dragRef`). -/
structure GraphUI where
  phys : List PhysNode
  drag : Option ℕ

/-- The node `onMouseDown` handler: pin the node, zero its velocity and
record the drag handle. -/
def graphPointerDown (s : GraphUI) (ni : ℕ) : GraphUI :=
  ⟨s.phys.set ni { nd s.phys ni with pinned := true, vx := 0, vy := 0 }, some ni⟩

/-- The window `mouseup` handler: if a drag is active, clear the dragged
node's pinned flag and drop the handle; nothing else changes. -/
def graphPointerUp (s : GraphUI) : GraphUI :=
  match s.drag with
  | some d => ⟨s.phys.set d { nd s.phys d with pinned := false }, none⟩
  | none => s

/-- Per-frame inputs the tick reads from its environment: the square
root interpretation, viewport size, hovered skill and mouse position. -/
structure FrameIn where
  sqrtQ : ℚ → ℚ
  w : ℚ
  h : ℚ
  hov : Option ℕ
  mouse : ℚ × ℚ

/-- One tick lifted to the component state. -/
def tickState (edges : List GEdge) (fr : FrameIn) (s : GraphUI) : GraphUI :=
  ⟨tick fr.sqrtQ fr.w fr.h fr.hov s.drag fr.mouse edges s.phys, s.drag⟩

/-- Run a sequence of ticks. -/
def runTicks (edges : List GEdge) (fs : List FrameIn) (s : GraphUI) : GraphUI :=
  fs.foldl (fun s fr => tickState edges fr s) s

/-- Pointer-down followed by an arbitrary run of ticks. -/
def dragSession (edges : List GEdge) (fs : List FrameIn) (s : GraphUI) (ni : ℕ) : GraphUI :=
  runTicks edges fs (graphPointerDown s ni)

/-- Opacity the tick writes to an edge element (`el.style.opacity`):
with a hovered skill, `0.85` for touching edges and `0.03` for the
rest; with no hover, the uniform `0.22`. -/
def edgeStyleOpacity (hov : Option ℕ) (e : GEdge) : ℚ :=
  match hov with
  | some hv => if e.ti = hv then 85/100 else 3/100
  | none => 22/100

/-- Membership in the precomputed `SKILL_TO_PROJECTS` index: project `i`
is connected to skill `hv` iff some edge joins them. -/
def connectedProjects (edges : List GEdge) (hv i : ℕ) : Bool :=
  edges.any (fun e => e.ti == hv && e.si == i)

/-- Opacity the tick writes to a node element: with a hovered skill,
`1` for the skill itself and its connected projects and `0.1` for every
other node; with no hover, the uniform `1`. -/
def nodeStyleOpacity (edges : List GEdge) (hov : Option ℕ) (i : ℕ) : ℚ :=
  match hov with
  | some hv => if i = hv ∨ connectedProjects edges hv i = true then 1 else 1/10
  | none => 1

/-- The edge list built from `src/data/projects.ts`: project nodes
`0..4` in file order (just-intelligence, just-wordpress, netflix-disney,
iata, storycorps) followed by the thirteen deduplicated skill tags as
nodes `5..17` in first-occurrence order; one edge per (project, tag)
pair. -/
def EDGES : List GEdge :=
  [⟨0, 5⟩, ⟨0, 6⟩, ⟨0, 7⟩,
   ⟨1, 8⟩, ⟨1, 9⟩, ⟨1, 7⟩,
   ⟨2, 10⟩, ⟨2, 11⟩, ⟨2, 12⟩,
   ⟨3, 13⟩, ⟨3, 14⟩, ⟨3, 15⟩,
   ⟨4, 14⟩, ⟨4, 16⟩, ⟨4, 17⟩]

/-- Claim C9 — the softened squared distance of the repulsion loop is
at least the `0.01` epsilon for every pair of node positions, identical
coordinates included, so it is strictly positive, never zero, and the
scalar force `REPEL / d2` is bounded by `480000`: the calculation has no
singularity and every value it divides by is provably nonzero. -/
theorem repulsion_singularity_guard (phys : List PhysNode) (i j : ℕ) :
    (1/100 : ℚ) ≤ repelD2 phys i j ∧ 0 < repelD2 phys i j ∧ repelD2 phys i j ≠ 0 ∧
      REPEL / repelD2 phys i j ≤ 480000 := by
  have hsq1 := mul_self_nonneg ((nd phys j).x - (nd phys i).x)
  have hsq2 := mul_self_nonneg ((nd phys j).y - (nd phys i).y)
  have h1 : (1/100 : ℚ) ≤ repelD2 phys i j := by
    unfold repelD2
    linarith
  have h2 : (0:ℚ) < repelD2 phys i j := lt_of_lt_of_le (by norm_num) h1
  refine ⟨h1, h2, ne_of_gt h2, ?_⟩
  rw [div_le_iff₀ h2]
  unfold REPEL
  nlinarith [h1]

/-- Claim C5 — with skill `hv` hovered, an edge renders at the
emphasized opacity `0.85` iff its skill endpoint is `hv` and at the
near-invisible `0.03` otherwise; a node renders dimmed at `0.1` iff it
is neither `hv` itself nor one of `hv`'s connected projects; with no
hover, every edge renders at the neutral `0.22` and every node at `1`. -/
theorem hover_highlight_partition (edges : List GEdge) (hv i : ℕ) (e : GEdge) :
    (edgeStyleOpacity (some hv) e = 85/100 ↔ e.ti = hv) ∧
    (e.ti ≠ hv → edgeStyleOpacity (some hv) e = 3/100) ∧
    (nodeStyleOpacity edges (some hv) i = 1/10 ↔
      (i ≠ hv ∧ connectedProjects edges hv i = false)) ∧
    edgeStyleOpacity none e = 22/100 ∧
    nodeStyleOpacity edges none i = 1 := by
  refine ⟨?_, ?_, ?_, rfl, rfl⟩
  · by_cases h : e.ti = hv
    · simp only [edgeStyleOpacity, if_pos h]
      exact ⟨fun _ => h, fun _ => trivial⟩
    · simp only [edgeStyleOpacity, if_neg h]
      constructor
      · intro hc
        norm_num at hc
      · intro hc
        exact absurd hc h
  · intro h
    simp only [edgeStyleOpacity, if_neg h]
  · by_cases h1 : i = hv
    · simp only [nodeStyleOpacity, if_pos (Or.inl h1)]
      constructor
      · intro hc
        norm_num at hc
      · intro hc
        exact absurd h1 hc.1
    · by_cases h2 : connectedProjects edges hv i = true
      · simp only [nodeStyleOpacity, if_pos (Or.inr h2)]
        constructor
        · intro hc
          norm_num at hc
        · intro hc
          rw [hc.2] at h2
          exact absurd h2 Bool.false_ne_true
      · simp only [nodeStyleOpacity, if_neg (by push_neg; exact ⟨h1, h2⟩ : ¬(i = hv ∨ connectedProjects edges hv i = true))]
        exact ⟨fun _ => ⟨h1, Bool.eq_false_iff.mpr h2⟩, fun _ => trivial⟩

/-- Witness for C5 on the concrete edge list: with skill `7`
(Front-End Dev) hovered, edge `(0, 7)` is emphasized, edge `(2, 10)` is
near-invisible, the unconnected node `2` is dimmed. -/
theorem hover_highlight_partition_witness :
    edgeStyleOpacity (some 7) ⟨0, 7⟩ = 85/100 ∧
    edgeStyleOpacity (some 7) ⟨2, 10⟩ = 3/100 ∧
    nodeStyleOpacity EDGES (some 7) 2 = 1/10 :=
  ⟨(hover_highlight_partition EDGES 7 2 ⟨0, 7⟩).1.mpr rfl,
   (hover_highlight_partition EDGES 7 2 ⟨2, 10⟩).2.1 (by decide),
   (hover_highlight_partition EDGES 7 2 ⟨2, 10⟩).2.2.1.mpr ⟨by decide, by decide⟩⟩

/-- Indexing a range-driven map. -/
theorem nd_map_range (f : ℕ → PhysNode) (n i : ℕ) (hi : i < n) :
    nd ((List.range n).map f) i = f i := by
  unfold nd
  rw [List.getElem?_map, List.getElem?_range hi]
  rfl

/-- Indexing a written slot. -/
theorem nd_set_self (l : List PhysNode) (i : ℕ) (a : PhysNode) (hi : i < l.length) :
    nd (l.set i a) i = a := by
  unfold nd
  rw [List.getElem?_set_self', List.getElem?_eq_getElem hi]
  rfl

/-- Indexing an untouched slot. -/
theorem nd_set_ne (l : List PhysNode) (i j : ℕ) (a : PhysNode) (hne : i ≠ j) :
    nd (l.set i a) j = nd l j := by
  unfold nd
  rw [List.getElem?_set_ne hne]

/-- A tick keeps the node array's length. -/
theorem tick_length (sqrtQ : ℚ → ℚ) (w h : ℚ) (hov : Option ℕ) (drag : Option ℕ)
    (mouse : ℚ × ℚ) (edges : List GEdge) (phys : List PhysNode) :
    (tick sqrtQ w h hov drag mouse edges phys).length = phys.length := by
  unfold tick
  rw [List.length_map, List.length_range]

/-- Reading one node out of a tick. -/
theorem nd_tick (sqrtQ : ℚ → ℚ) (w h : ℚ) (hov : Option ℕ) (drag : Option ℕ)
    (mouse : ℚ × ℚ) (edges : List GEdge) (phys : List PhysNode) (i : ℕ)
    (hi : i < phys.length) :
    nd (tick sqrtQ w h hov drag mouse edges phys) i =
      integrateNode w h drag mouse i (nd phys i)
        (forceBuf sqrtQ phys hov edges (w/2) (h/2) i) := by
  unfold tick
  exact nd_map_range _ _ _ hi

/-- A pinned node that owns the drag handle comes out of a tick moved to
the mouse and otherwise untouched. -/
theorem nd_tick_pinned (sqrtQ : ℚ → ℚ) (w h : ℚ) (hov : Option ℕ) (mouse : ℚ × ℚ)
    (edges : List GEdge) (phys : List PhysNode) (i : ℕ) (hi : i < phys.length)
    (hp : (nd phys i).pinned = true) :
    nd (tick sqrtQ w h hov (some i) mouse edges phys) i =
      { nd phys i with x := mouse.1, y := mouse.2 } := by
  rw [nd_tick sqrtQ w h hov (some i) mouse edges phys i hi]
  unfold integrateNode
  rw [if_pos hp, if_pos rfl]

/-- Ticks preserve the drag handle, the array length, and the pinned
flag and exact velocity of the dragged node. -/
theorem runTicks_drag_invariant (edges : List GEdge) (fs : List FrameIn) :
    ∀ (s : GraphUI) (ni : ℕ), ni < s.phys.length → s.drag = some ni →
      (nd s.phys ni).pinned = true →
      (runTicks edges fs s).drag = some ni ∧
      ni < (runTicks edges fs s).phys.length ∧
      (nd (runTicks edges fs s).phys ni).pinned = true ∧
      (nd (runTicks edges fs s).phys ni).vx = (nd s.phys ni).vx ∧
      (nd (runTicks edges fs s).phys ni).vy = (nd s.phys ni).vy := by
  induction fs with
  | nil =>
    intro s ni hi hd hp
    exact ⟨hd, hi, hp, rfl, rfl⟩
  | cons fr fs ih =>
    intro s ni hi hd hp
    have hnode : nd (tickState edges fr s).phys ni =
        { nd s.phys ni with x := fr.mouse.1, y := fr.mouse.2 } := by
      show nd (tick fr.sqrtQ fr.w fr.h fr.hov s.drag fr.mouse edges s.phys) ni = _
      rw [hd]
      exact nd_tick_pinned fr.sqrtQ fr.w fr.h fr.hov fr.mouse edges s.phys ni hi hp
    have h1 : ni < (tickState edges fr s).phys.length := by
      show ni < (tick fr.sqrtQ fr.w fr.h fr.hov s.drag fr.mouse edges s.phys).length
      rw [tick_length]
      exact hi
    have h2 : (tickState edges fr s).drag = some ni := hd
    have h3 : (nd (tickState edges fr s).phys ni).pinned = true := by
      rw [hnode]
      exact hp
    obtain ⟨g1, g2, g3, g4, g5⟩ := ih (tickState edges fr s) ni h1 h2 h3
    refine ⟨g1, g2, g3, ?_, ?_⟩
    · rw [show runTicks edges (fr :: fs) s = runTicks edges fs (tickState edges fr s) from rfl,
        g4, hnode]
    · rw [show runTicks edges (fr :: fs) s = runTicks edges fs (tickState edges fr s) from rfl,
        g5, hnode]

/-- Pointer-down establishes the invariant's preconditions. -/
theorem graphPointerDown_facts (s : GraphUI) (ni : ℕ) (hi : ni < s.phys.length) :
    ni < (graphPointerDown s ni).phys.length ∧
    (graphPointerDown s ni).drag = some ni ∧
    nd (graphPointerDown s ni).phys ni =
      { nd s.phys ni with pinned := true, vx := 0, vy := 0 } := by
  refine ⟨?_, rfl, ?_⟩
  · show ni < (s.phys.set ni _).length
    rw [List.length_set]
    exact hi
  · exact nd_set_self s.phys ni _ hi

/-- Claim C4 — pin correctness: after pointer-down on node `ni` and any
sequence of ticks with live pointer positions, one further tick with
pointer position `fr.mouse` ends with node `ni` exactly at `fr.mouse`,
regardless of the gravity, repulsion and spring forces of that tick;
integration is skipped for the pinned node. -/
theorem pinned_node_follows_pointer (edges : List GEdge) (fs : List FrameIn) (fr : FrameIn)
    (s : GraphUI) (ni : ℕ) (hi : ni < s.phys.length) :
    (nd (tickState edges fr (dragSession edges fs s ni)).phys ni).x = fr.mouse.1 ∧
    (nd (tickState edges fr (dragSession edges fs s ni)).phys ni).y = fr.mouse.2 := by
  obtain ⟨d1, d2, d3⟩ := graphPointerDown_facts s ni hi
  obtain ⟨g1, g2, g3, _, _⟩ := runTicks_drag_invariant edges fs (graphPointerDown s ni) ni d1 d2
    (by rw [d3])
  have hnode : nd (tickState edges fr (dragSession edges fs s ni)).phys ni =
      { nd (dragSession edges fs s ni).phys ni with x := fr.mouse.1, y := fr.mouse.2 } := by
    show nd (tick fr.sqrtQ fr.w fr.h fr.hov (dragSession edges fs s ni).drag fr.mouse edges
        (dragSession edges fs s ni).phys) ni = _
    rw [show (dragSession edges fs s ni).drag = some ni from g1]
    exact nd_tick_pinned fr.sqrtQ fr.w fr.h fr.hov fr.mouse edges
      (dragSession edges fs s ni).phys ni g2 g3
  rw [hnode]
  exact ⟨rfl, rfl⟩

/-- A one-node starting state for the concrete drag evaluations. -/
def demoState : GraphUI := ⟨[⟨100, 100, 2, 3, false⟩, ⟨300, 200, 0, 0, false⟩], none⟩

/-- A concrete tick environment. -/
def demoFrameA : FrameIn := ⟨fun q => q, 1280, 800, none, (240, 260)⟩

/-- A second concrete tick environment with the pointer elsewhere. -/
def demoFrameB : FrameIn := ⟨fun q => q, 1280, 800, some 1, (355, 410)⟩

/-- Witness for C4: grab node `0` of the two-node demo state, tick once
with the pointer at `(240, 260)`, then tick with the pointer at
`(355, 410)` — the node sits exactly at `(355, 410)`. -/
theorem pinned_node_follows_pointer_witness :
    0 < demoState.phys.length ∧
    (nd (tickState EDGES demoFrameB (dragSession EDGES [demoFrameA] demoState 0)).phys 0).x
      = demoFrameB.mouse.1 ∧
    (nd (tickState EDGES demoFrameB (dragSession EDGES [demoFrameA] demoState 0)).phys 0).y
      = demoFrameB.mouse.2 :=
  ⟨by norm_num [demoState],
   (pinned_node_follows_pointer EDGES [demoFrameA] demoFrameB demoState 0
      (by norm_num [demoState])).1,
   (pinned_node_follows_pointer EDGES [demoFrameA] demoFrameB demoState 0
      (by norm_num [demoState])).2⟩

/-- Claim C10 — releasing a dragged node imparts no momentum: after
pointer-down on node `ni` (which pins it and zeroes its velocity) and
any number of ticks (which skip integration for the pinned node), the
pointer-up handler only clears the dragged node's pinned flag — every
other node and every other field is untouched — and the node resumes
force-driven motion from velocity exactly `(0, 0)`. -/
theorem release_imparts_no_momentum (edges : List GEdge) (fs : List FrameIn) (s : GraphUI)
    (ni : ℕ) (hi : ni < s.phys.length) :
    (graphPointerUp (dragSession edges fs s ni)).drag = none ∧
    (graphPointerUp (dragSession edges fs s ni)).phys =
      (dragSession edges fs s ni).phys.set ni
        { nd (dragSession edges fs s ni).phys ni with pinned := false } ∧
    (nd (graphPointerUp (dragSession edges fs s ni)).phys ni).pinned = false ∧
    (nd (graphPointerUp (dragSession edges fs s ni)).phys ni).vx = 0 ∧
    (nd (graphPointerUp (dragSession edges fs s ni)).phys ni).vy = 0 ∧
    (nd (graphPointerUp (dragSession edges fs s ni)).phys ni).x =
      (nd (dragSession edges fs s ni).phys ni).x ∧
    (nd (graphPointerUp (dragSession edges fs s ni)).phys ni).y =
      (nd (dragSession edges fs s ni).phys ni).y ∧
    (∀ j, j ≠ ni → nd (graphPointerUp (dragSession edges fs s ni)).phys j =
      nd (dragSession edges fs s ni).phys j) := by
  obtain ⟨d1, d2, d3⟩ := graphPointerDown_facts s ni hi
  obtain ⟨g1, g2, g3, g4, g5⟩ := runTicks_drag_invariant edges fs (graphPointerDown s ni) ni
    d1 d2 (by rw [d3])
  have hvx : (nd (dragSession edges fs s ni).phys ni).vx = 0 := by
    rw [show dragSession edges fs s ni = runTicks edges fs (graphPointerDown s ni) from rfl,
      g4, d3]
  have hvy : (nd (dragSession edges fs s ni).phys ni).vy = 0 := by
    rw [show dragSession edges fs s ni = runTicks edges fs (graphPointerDown s ni) from rfl,
      g5, d3]
  have hup : graphPointerUp (dragSession edges fs s ni) =
      ⟨(dragSession edges fs s ni).phys.set ni
        { nd (dragSession edges fs s ni).phys ni with pinned := false }, none⟩ := by
    unfold graphPointerUp
    rw [show (dragSession edges fs s ni).drag = some ni from g1]
  have hself : nd ((dragSession edges fs s ni).phys.set ni
      { nd (dragSession edges fs s ni).phys ni with pinned := false }) ni =
      { nd (dragSession edges fs s ni).phys ni with pinned := false } :=
    nd_set_self _ _ _ g2
  refine ⟨by rw [hup], by rw [hup], ?_, ?_, ?_, ?_, ?_, ?_⟩
  · rw [hup]
    show (nd ((dragSession edges fs s ni).phys.set ni _) ni).pinned = false
    rw [hself]
  · rw [hup]
    show (nd ((dragSession edges fs s ni).phys.set ni _) ni).vx = 0
    rw [hself]
    exact hvx
  · rw [hup]
    show (nd ((dragSession edges fs s ni).phys.set ni _) ni).vy = 0
    rw [hself]
    exact hvy
  · rw [hup]
    show (nd ((dragSession edges fs s ni).phys.set ni _) ni).x = _
    rw [hself]
  · rw [hup]
    show (nd ((dragSession edges fs s ni).phys.set ni _) ni).y = _
    rw [hself]
  · intro j hj
    rw [hup]
    show nd ((dragSession edges fs s ni).phys.set ni _) j = _
    exact nd_set_ne _ _ _ _ (fun hq => hj hq.symm)

/-- Witness for C10: the concrete drag session on node `0` releases with
velocity exactly `(0, 0)` and an unpinned node. -/
theorem release_imparts_no_momentum_witness :
    0 < demoState.phys.length ∧
    (nd (graphPointerUp (dragSession EDGES [demoFrameA, demoFrameB] demoState 0)).phys 0).pinned
      = false ∧
    (nd (graphPointerUp (dragSession EDGES [demoFrameA, demoFrameB] demoState 0)).phys 0).vx
      = 0 ∧
    (nd (graphPointerUp (dragSession EDGES [demoFrameA, demoFrameB] demoState 0)).phys 0).vy
      = 0 :=
  ⟨by norm_num [demoState],
   (release_imparts_no_momentum EDGES [demoFrameA, demoFrameB] demoState 0
      (by norm_num [demoState])).2.2.1,
   (release_imparts_no_momentum EDGES [demoFrameA, demoFrameB] demoState 0
      (by norm_num [demoState])).2.2.2.1,
   (release_imparts_no_momentum EDGES [demoFrameA, demoFrameB] demoState 0
      (by norm_num [demoState])).2.2.2.2.1⟩

/-- A buffer write list's effect on slot `k` is its summed filtered
payload: running the writes sequentially is pointwise addition. -/
theorem foldl_addAt (l : List (ℕ × (ℚ × ℚ))) :
    ∀ (F : ℕ → ℚ × ℚ) (k : ℕ),
      (l.foldl (fun F p => addAt F p.1 p.2) F) k = F k + sumAt l k := by
  induction l with
  | nil =>
    intro F k
    simp [sumAt]
  | cons p l ih =>
    intro F k
    show (l.foldl (fun F p => addAt F p.1 p.2) (addAt F p.1 p.2)) k = _
    rw [ih (addAt F p.1 p.2) k]
    unfold addAt sumAt
    rw [List.map_cons, List.sum_cons]
    by_cases h : p.1 = k
    · subst h
      rw [if_pos rfl, if_pos rfl, add_assoc]
    · rw [if_neg (fun hq => h hq.symm), if_neg h, zero_add]

/-- Contributions to a slot split over concatenation. -/
theorem sumAt_append (l1 l2 : List (ℕ × (ℚ × ℚ))) (k : ℕ) :
    sumAt (l1 ++ l2) k = sumAt l1 k + sumAt l2 k := by
  unfold sumAt
  rw [List.map_append, List.sum_append]

/-- Contribution of a one-write list. -/
theorem sumAt_singleton (i k : ℕ) (v : ℚ × ℚ) :
    sumAt [(i, v)] k = if i = k then v else 0 := by
  unfold sumAt
  simp

/-- Contributions to a slot distribute over a flatMap of write lists. -/
theorem sumAt_flatMap {α : Type} (l : List α) (f : α → List (ℕ × (ℚ × ℚ))) (k : ℕ) :
    sumAt (l.flatMap f) k = (l.map (fun a => sumAt (f a) k)).sum := by
  induction l with
  | nil => simp [sumAt]
  | cons a l ih =>
    rw [List.flatMap_cons, sumAt_append, ih, List.map_cons, List.sum_cons]

/-- Summed maps split pointwise additions. -/
theorem sum_map_add {α : Type} (l : List α) (f g : α → ℚ × ℚ) :
    (l.map (fun a => f a + g a)).sum = (l.map f).sum + (l.map g).sum := by
  induction l with
  | nil => simp
  | cons a l ih =>
    simp only [List.map_cons, List.sum_cons]
    rw [ih, add_add_add_comm]

/-- Summing over a flatMap is the sum of inner sums. -/
theorem sum_map_flatMap {α β : Type} (l : List α) (f : α → List β) (g : β → ℚ × ℚ) :
    ((l.flatMap f).map g).sum = (l.map (fun a => ((f a).map g).sum)).sum := by
  induction l with
  | nil => simp
  | cons a l ih =>
    rw [List.flatMap_cons, List.map_append, List.sum_append, ih, List.map_cons, List.sum_cons]

/-- Summing over a filtered list is summing a guarded map. -/
theorem sum_map_filter {α : Type} (l : List α) (p : α → Bool) (g : α → ℚ × ℚ) :
    ((l.filter p).map g).sum = (l.map (fun a => if p a then g a else 0)).sum := by
  induction l with
  | nil => simp
  | cons a l ih =>
    by_cases h : p a
    · rw [List.filter_cons_of_pos h, List.map_cons, List.sum_cons, ih, List.map_cons,
        List.sum_cons, if_pos h]
    · rw [List.filter_cons_of_neg h, ih, List.map_cons, List.sum_cons, if_neg h, zero_add]

/-- A range sum supported on a single index. -/
theorem sum_map_range_single (n k : ℕ) (v : ℕ → ℚ × ℚ) :
    ((List.range n).map (fun i => if i = k then v i else 0)).sum
      = if k < n then v k else 0 := by
  induction n with
  | zero => simp
  | succ n ih =>
    rw [List.range_succ, List.map_append, List.sum_append, ih]
    simp only [List.map_cons, List.map_nil, List.sum_cons, List.sum_nil]
    by_cases h1 : k < n
    · rw [if_pos h1, if_pos (Nat.lt_succ_of_lt h1), if_neg (by omega : ¬ n = k), add_zero,
        add_zero]
    · by_cases h2 : k = n
      · subst h2
        rw [if_neg h1, if_pos (Nat.lt_succ_self k), if_pos rfl, zero_add, add_zero]
      · rw [if_neg h1, if_neg (by omega : ¬ k < n + 1), if_neg (by omega : ¬ n = k),
          zero_add, add_zero]

/-- Contribution of a pinned-gated single write, expressed through the
receiving slot's pinned flag. -/
theorem sumAt_gated_single (phys : List PhysNode) (i k : ℕ) (v : ℚ × ℚ) :
    sumAt (if (nd phys i).pinned then [] else [(i, v)]) k
      = if i = k then (if (nd phys k).pinned = false then v else 0) else 0 := by
  by_cases hp : (nd phys i).pinned
  · rw [if_pos hp]
    by_cases hik : i = k
    · subst hik
      rw [if_pos rfl, if_neg (by simp [hp])]
      rfl
    · rw [if_neg hik]
      rfl
  · rw [if_neg hp, sumAt_singleton]
    rw [Bool.not_eq_true] at hp
    by_cases hik : i = k
    · subst hik
      rw [if_pos rfl, if_pos rfl, if_pos hp]
    · rw [if_neg hik, if_neg hik]

/-- Members of the pair list are exactly the ordered in-range pairs. -/
theorem mem_pairIdx (n : ℕ) (ij : ℕ × ℕ) (hm : ij ∈ pairIdx n) :
    ij.1 < ij.2 ∧ ij.2 < n := by
  unfold pairIdx at hm
  simp only [List.mem_flatMap, List.mem_map, List.mem_filter, List.mem_range,
    decide_eq_true_eq] at hm
  obtain ⟨i, _, j, ⟨hj, hij⟩, hpair⟩ := hm
  rw [← hpair]
  exact ⟨hij, hj⟩

/-- The softened squared distance is symmetric in its two nodes. -/
theorem repelD2_symm (phys : List PhysNode) (i j : ℕ) :
    repelD2 phys i j = repelD2 phys j i := by
  unfold repelD2
  ring

/-- Action and reaction of one repulsion pair: what `i` receives is the
negation of what `j` receives, and flipping the pair flips the force. -/
theorem repelContrib_antisymm (sqrtQ : ℚ → ℚ) (phys : List PhysNode) (i j : ℕ) :
    -(repelContrib sqrtQ phys i j) = repelContrib sqrtQ phys j i := by
  unfold repelContrib
  rw [repelD2_symm phys j i]
  rw [Prod.neg_mk, Prod.mk.injEq]
  constructor
  · ring
  · ring

/-- The gravity loop contributes to slot `k` exactly the spec's gravity
force when `k` indexes an unpinned node, nothing otherwise. -/
theorem sumAt_gravContribs (phys : List PhysNode) (cx cy : ℚ) (k : ℕ) :
    sumAt (gravContribs phys cx cy) k =
      if k < phys.length ∧ (nd phys k).pinned = false
      then gravityForceOn phys cx cy k else 0 := by
  unfold gravContribs
  rw [sumAt_flatMap]
  have hcong : ∀ i ∈ List.range phys.length,
      sumAt (if (nd phys i).pinned then []
             else [(i, ((cx - (nd phys i).x) * GRAVITY, (cy - (nd phys i).y) * GRAVITY))]) k
      = if i = k then (if (nd phys k).pinned = false then gravityForceOn phys cx cy i else 0)
        else 0 := by
    intro i _
    rw [sumAt_gated_single phys i k]
    by_cases hik : i = k
    · subst hik
      by_cases hpf : (nd phys i).pinned = false
      · rw [if_pos rfl, if_pos rfl, if_pos hpf, if_pos hpf]
        unfold gravityForceOn
        rfl
      · rw [if_pos rfl, if_pos rfl, if_neg hpf, if_neg hpf]
    · rw [if_neg hik, if_neg hik]
  rw [List.map_congr_left hcong, sum_map_range_single]
  by_cases h1 : k < phys.length
  · rw [if_pos h1]
    by_cases h2 : (nd phys k).pinned = false
    · rw [if_pos h2, if_pos ⟨h1, h2⟩]
    · rw [if_neg h2, if_neg (fun hc => h2 hc.2)]
  · rw [if_neg h1, if_neg (fun hc => h1 hc.1)]

/-- The spring loop contributes to slot `k` exactly the spec's per-node
spring sum when node `k` is unpinned, nothing otherwise. -/
theorem sumAt_springContribs (sqrtQ : ℚ → ℚ) (phys : List PhysNode) (hov : Option ℕ)
    (edges : List GEdge) (k : ℕ) :
    sumAt (springContribs sqrtQ phys hov edges) k =
      if (nd phys k).pinned = false
      then (edges.map (fun e =>
        (if e.si = k then springContrib sqrtQ phys hov e else 0) +
        (if e.ti = k then -(springContrib sqrtQ phys hov e) else 0))).sum
      else 0 := by
  unfold springContribs
  rw [sumAt_flatMap]
  have hcong : ∀ e ∈ edges,
      sumAt ((if (nd phys e.si).pinned then []
              else [(e.si, springContrib sqrtQ phys hov e)]) ++
             (if (nd phys e.ti).pinned then []
              else [(e.ti, -(springContrib sqrtQ phys hov e))])) k
      = (if e.si = k then (if (nd phys k).pinned = false
          then springContrib sqrtQ phys hov e else 0) else 0) +
        (if e.ti = k then (if (nd phys k).pinned = false
          then -(springContrib sqrtQ phys hov e) else 0) else 0) := by
    intro e _
    rw [sumAt_append, sumAt_gated_single phys e.si k, sumAt_gated_single phys e.ti k]
  rw [List.map_congr_left hcong]
  by_cases hp : (nd phys k).pinned = false
  · rw [if_pos hp]
    simp only [if_pos hp]
  · rw [if_neg hp]
    have hz : ∀ e ∈ edges,
        ((if e.si = k then (if (nd phys k).pinned = false
            then springContrib sqrtQ phys hov e else 0) else 0) +
         (if e.ti = k then (if (nd phys k).pinned = false
            then -(springContrib sqrtQ phys hov e) else 0) else 0)) = 0 := by
      intro e _
      simp only [if_neg hp, ite_self, add_zero]
    rw [List.map_congr_left hz]
    simp

/-- Writes of the pair loop to a first component: summed over all
ordered pairs they are the repulsions received from the nodes above
`k`. -/
theorem repel_pair_sum_fst (sqrtQ : ℚ → ℚ) (phys : List PhysNode) (k : ℕ)
    (hkn : k < phys.length) :
    ((pairIdx phys.length).map
      (fun ij => if ij.1 = k then -(repelContrib sqrtQ phys ij.1 ij.2) else 0)).sum
    = ((List.range phys.length).map
      (fun j => if k < j then -(repelContrib sqrtQ phys k j) else 0)).sum := by
  unfold pairIdx
  rw [sum_map_flatMap]
  have h1 : ∀ i ∈ List.range phys.length,
      ((((List.range phys.length).filter (fun j => decide (i < j))).map
         (fun j => (i, j))).map
        (fun ij => if ij.1 = k then -(repelContrib sqrtQ phys ij.1 ij.2) else 0)).sum
      = if i = k
        then ((List.range phys.length).map
          (fun j => if k < j then -(repelContrib sqrtQ phys k j) else 0)).sum
        else 0 := by
    intro i _
    rw [List.map_map, sum_map_filter]
    by_cases hik : i = k
    · subst hik
      rw [if_pos rfl]
      refine congrArg List.sum (List.map_congr_left ?_)
      intro j _
      simp only [Function.comp_apply, decide_eq_true_eq]
      by_cases hkj : i < j
      · simp [hkj]
      · simp [hkj]
    · rw [if_neg hik]
      have hz : ∀ j ∈ List.range phys.length,
          (if decide (i < j) = true
           then ((fun ij : ℕ × ℕ =>
              if ij.1 = k then -(repelContrib sqrtQ phys ij.1 ij.2) else 0) ∘
              fun j => (i, j)) j
           else 0) = 0 := by
        intro j _
        simp only [Function.comp_apply]
        rw [if_neg hik, ite_self]
      rw [List.map_congr_left hz]
      simp
  rw [List.map_congr_left h1, sum_map_range_single, if_pos hkn]

/-- Writes of the pair loop to a second component: summed over all
ordered pairs they are the repulsions received from the nodes below
`k`. -/
theorem repel_pair_sum_snd (sqrtQ : ℚ → ℚ) (phys : List PhysNode) (k : ℕ)
    (hkn : k < phys.length) :
    ((pairIdx phys.length).map
      (fun ij => if ij.2 = k then repelContrib sqrtQ phys ij.1 ij.2 else 0)).sum
    = ((List.range phys.length).map
      (fun i => if i < k then repelContrib sqrtQ phys i k else 0)).sum := by
  unfold pairIdx
  rw [sum_map_flatMap]
  have h1 : ∀ i ∈ List.range phys.length,
      ((((List.range phys.length).filter (fun j => decide (i < j))).map
         (fun j => (i, j))).map
        (fun ij => if ij.2 = k then repelContrib sqrtQ phys ij.1 ij.2 else 0)).sum
      = if i < k then repelContrib sqrtQ phys i k else 0 := by
    intro i _
    rw [List.map_map, sum_map_filter]
    have h2 : ∀ j ∈ List.range phys.length,
        (if decide (i < j) = true
         then ((fun ij : ℕ × ℕ =>
            if ij.2 = k then repelContrib sqrtQ phys ij.1 ij.2 else 0) ∘
            fun j => (i, j)) j
         else 0)
        = (if j = k then (if i < k then repelContrib sqrtQ phys i k else 0) else 0) := by
      intro j _
      simp only [Function.comp_apply, decide_eq_true_eq]
      by_cases hjk : j = k
      · subst hjk
        by_cases hik2 : i < j
        · simp [hik2]
        · simp [hik2]
      · by_cases hij : i < j
        · simp [hij, hjk]
        · simp [hij, hjk]
    rw [List.map_congr_left h2, sum_map_range_single, if_pos hkn]
  rw [List.map_congr_left h1]

/-- The pair loop contributes to slot `k` exactly the spec's summed
repulsion from every other node when `k` indexes an unpinned node,
nothing otherwise. -/
theorem sumAt_pairContribs (sqrtQ : ℚ → ℚ) (phys : List PhysNode) (k : ℕ) :
    sumAt (pairContribs sqrtQ phys) k =
      if k < phys.length ∧ (nd phys k).pinned = false
      then ((List.range phys.length).map
        (fun j => if j = k then 0 else repelContrib sqrtQ phys j k)).sum
      else 0 := by
  unfold pairContribs
  rw [sumAt_flatMap]
  have hcong : ∀ ij ∈ pairIdx phys.length,
      sumAt ((if (nd phys ij.1).pinned then []
              else [(ij.1, -(repelContrib sqrtQ phys ij.1 ij.2))]) ++
             (if (nd phys ij.2).pinned then []
              else [(ij.2, repelContrib sqrtQ phys ij.1 ij.2)])) k
      = (if ij.1 = k then (if (nd phys k).pinned = false
          then -(repelContrib sqrtQ phys ij.1 ij.2) else 0) else 0) +
        (if ij.2 = k then (if (nd phys k).pinned = false
          then repelContrib sqrtQ phys ij.1 ij.2 else 0) else 0) := by
    intro ij _
    rw [sumAt_append, sumAt_gated_single phys ij.1 k, sumAt_gated_single phys ij.2 k]
  rw [List.map_congr_left hcong]
  by_cases hp : (nd phys k).pinned = false
  · simp only [if_pos hp]
    by_cases hkn : k < phys.length
    · rw [if_pos ⟨hkn, hp⟩, sum_map_add, repel_pair_sum_fst sqrtQ phys k hkn,
        repel_pair_sum_snd sqrtQ phys k hkn, ← sum_map_add]
      refine congrArg List.sum (List.map_congr_left ?_)
      intro j _
      rcases lt_trichotomy j k with hlt | heq | hgt
      · rw [if_neg (by omega : ¬ k < j), if_pos hlt, if_neg (by omega : ¬ j = k), zero_add]
      · subst heq
        rw [if_neg (lt_irrefl j), if_neg (lt_irrefl j), if_pos rfl, add_zero]
      · rw [if_pos hgt, if_neg (by omega : ¬ j < k), if_neg (by omega : ¬ j = k), add_zero,
          repelContrib_antisymm]
    · rw [if_neg (fun hc => hkn hc.1)]
      have hz : ∀ ij ∈ pairIdx phys.length,
          ((if ij.1 = k then -(repelContrib sqrtQ phys ij.1 ij.2) else 0) +
           (if ij.2 = k then repelContrib sqrtQ phys ij.1 ij.2 else 0)) = 0 := by
        intro ij hm
        obtain ⟨h1, h2⟩ := mem_pairIdx phys.length ij hm
        rw [if_neg (by omega : ¬ ij.1 = k), if_neg (by omega : ¬ ij.2 = k), add_zero]
      rw [List.map_congr_left hz]
      simp
  · rw [if_neg (fun hc => hp hc.2)]
    have hz : ∀ ij ∈ pairIdx phys.length,
        ((if ij.1 = k then (if (nd phys k).pinned = false
            then -(repelContrib sqrtQ phys ij.1 ij.2) else 0) else 0) +
         (if ij.2 = k then (if (nd phys k).pinned = false
            then repelContrib sqrtQ phys ij.1 ij.2 else 0) else 0)) = 0 := by
      intro ij _
      simp only [if_neg hp, ite_self, add_zero]
    rw [List.map_congr_left hz]
    simp

/-- The force buffers left by the three accumulation loops agree, slot
by slot, with the per-node specification force computed from the
previous-frame state. -/
theorem forceBuf_eq_specForce (sqrtQ : ℚ → ℚ) (phys : List PhysNode) (hov : Option ℕ)
    (edges : List GEdge) (cx cy : ℚ) (k : ℕ) (hk : k < phys.length) :
    forceBuf sqrtQ phys hov edges cx cy k = specForce sqrtQ phys hov edges cx cy k := by
  unfold forceBuf specForce
  rw [foldl_addAt, sumAt_append, sumAt_append, sumAt_gravContribs, sumAt_pairContribs,
    sumAt_springContribs]
  by_cases hp : (nd phys k).pinned = false
  · rw [if_pos ⟨hk, hp⟩, if_pos ⟨hk, hp⟩, if_pos hp, if_neg (by rw [hp]; simp)]
    rw [zero_add]
  · rw [if_neg (fun hc => hp hc.2), if_neg (fun hc => hp hc.2), if_neg hp,
      if_pos (by revert hp; cases (nd phys k).pinned <;> simp)]
    simp

/-- Claim C6 — the tick is a simultaneous-update (two-phase) step: it
equals the reference step that computes every node's total force purely
from the fully-settled previous-frame positions and only then integrates
every node, for every interpretation of the square root, every edge
list, every hover/drag state and every node array — not a sequential
Gauss-Seidel-style update reading partially-updated positions. -/
theorem tick_two_phase (sqrtQ : ℚ → ℚ) (w h : ℚ) (hov : Option ℕ) (drag : Option ℕ)
    (mouse : ℚ × ℚ) (edges : List GEdge) (phys : List PhysNode) :
    tick sqrtQ w h hov drag mouse edges phys =
      specTick sqrtQ w h hov drag mouse edges phys := by
  unfold tick specTick
  refine List.map_congr_left ?_
  intro i hi
  rw [List.mem_range] at hi
  rw [forceBuf_eq_specForce sqrtQ phys hov edges (w/2) (h/2) i hi]

/-- The velocity clamp of the integration loop stays within `±VMAX`. -/
theorem clamp_abs_le (z : ℚ) : |max (-VMAX) (min VMAX z)| ≤ VMAX := by
  rw [abs_le]
  constructor
  · exact neg_le_neg_iff.mpr (le_refl VMAX) |>.trans_eq rfl |>.trans (le_max_left _ _)
  · exact max_le (by norm_num [VMAX]) (min_le_left _ _)

/-- The soft bounce lands every coordinate inside the padded rectangle
side and never increases the velocity magnitude, provided the side is at
least `2 × PAD` long. -/
theorem softBounce_bounds (limit v p : ℚ) (hl : 140 ≤ limit) :
    PAD ≤ (softBounce limit v p).1 ∧ (softBounce limit v p).1 ≤ limit - PAD ∧
      |(softBounce limit v p).2| ≤ |v| := by
  have habs : |v * (-(3/10))| ≤ |v| := by
    rw [abs_mul]
    nlinarith [abs_nonneg v, abs_of_neg (show (-(3/10) : ℚ) < 0 by norm_num)]
  have habs2 : |v * (-(3/10)) * (-(3/10))| ≤ |v| := by
    rw [abs_mul]
    nlinarith [abs_nonneg (v * (-(3/10))), abs_mul v (-(3/10)), abs_nonneg v,
      abs_of_neg (show (-(3/10) : ℚ) < 0 by norm_num)]
  unfold softBounce PAD
  by_cases h1 : p < 70
  · simp only [if_pos h1]
    by_cases h2 : limit - 70 < (70:ℚ)
    · simp only [if_pos h2]
      exact ⟨by linarith, le_refl _, habs2⟩
    · simp only [if_neg h2]
      exact ⟨le_refl _, by linarith, habs⟩
  · simp only [if_neg h1]
    by_cases h2 : limit - 70 < p
    · simp only [if_pos h2]
      exact ⟨by linarith, le_refl _, habs⟩
    · simp only [if_neg h2]
      exact ⟨by linarith, by linarith, le_refl _⟩

/-- Two of the three parts of the steady-state property hold as per-tick
invariants: whatever the forces, every unpinned node leaves a tick
inside the padded viewport rectangle with both velocity components
clamped to at most `VMAX` in magnitude (viewport at least `2 × PAD` on
each side).  The remaining part — convergence of the velocity magnitude
below an epsilon — is a genuine asymptotic property of the nonlinear
dynamics and is not settled here. -/
theorem tick_bounded_invariant (sqrtQ : ℚ → ℚ) (w h : ℚ) (hov drag : Option ℕ)
    (mouse : ℚ × ℚ) (edges : List GEdge) (phys : List PhysNode) (i : ℕ)
    (hw : 140 ≤ w) (hh : 140 ≤ h) (hi : i < phys.length)
    (hp : (nd phys i).pinned = false) :
    PAD ≤ (nd (tick sqrtQ w h hov drag mouse edges phys) i).x ∧
    (nd (tick sqrtQ w h hov drag mouse edges phys) i).x ≤ w - PAD ∧
    PAD ≤ (nd (tick sqrtQ w h hov drag mouse edges phys) i).y ∧
    (nd (tick sqrtQ w h hov drag mouse edges phys) i).y ≤ h - PAD ∧
    |(nd (tick sqrtQ w h hov drag mouse edges phys) i).vx| ≤ VMAX ∧
    |(nd (tick sqrtQ w h hov drag mouse edges phys) i).vy| ≤ VMAX := by
  rw [nd_tick sqrtQ w h hov drag mouse edges phys i hi]
  unfold integrateNode
  rw [if_neg (by simp [hp])]
  obtain ⟨bx1, bx2, bx3⟩ := softBounce_bounds w
    (max (-VMAX) (min VMAX (((nd phys i).vx +
      (forceBuf sqrtQ phys hov edges (w/2) (h/2) i).1) * DAMPING)))
    ((nd phys i).x + max (-VMAX) (min VMAX (((nd phys i).vx +
      (forceBuf sqrtQ phys hov edges (w/2) (h/2) i).1) * DAMPING))) hw
  obtain ⟨ny1, ny2, ny3⟩ := softBounce_bounds h
    (max (-VMAX) (min VMAX (((nd phys i).vy +
      (forceBuf sqrtQ phys hov edges (w/2) (h/2) i).2) * DAMPING)))
    ((nd phys i).y + max (-VMAX) (min VMAX (((nd phys i).vy +
      (forceBuf sqrtQ phys hov edges (w/2) (h/2) i).2) * DAMPING))) hh
  exact ⟨bx1, bx2, ny1, ny2, bx3.trans (clamp_abs_le _), ny3.trans (clamp_abs_le _)⟩

end Graph
end Portfolio
